import Mathlib

/-!
Verification of the IPYDEMO repository specification.

The repository is a toolkit for simulating ODE-driven dynamical systems
(`ipyshow.odesimu` core plus demo notebooks) and a fractal viewer.  The
odesimu core itself (trajectory cache, scheduler loop, error handling) is
not shipped in the source tree we were given — only its documentation and
its callers are — so those parts are modelled from the specification text,
as indicated on each definition.  The demo notebooks (pendulum, N-body,
pursuit, vehicle, fractals, constgrav) are embedded directly from their
source cells.

Conventions: times, cache payloads and fractal arithmetic use `ℚ` so the
model stays executable; physical quantities involving `π`, `sin`, `sqrt`
and real powers use `ℝ`.
-/

namespace IPYDEMO

/-! ### Trajectory cache (spec §4.3, modelled from the spec) -/

/-- Modelled from the spec: a trajectory-cache entry is a pair
(time, state-vector-copy) (spec §3, "Trajectory cache entry").  The cache
implementation (`ipyshow.odesimu` core) is missing from the source tree;
only its configuration (`launch_defaults = dict(period=10.,cache=(10,.05),...)`)
and its callers appear there. -/
structure TrajCache where
  capacity : ℕ
  taild : ℚ
  entries : List (ℚ × List ℚ)

/-- Modelled from the spec: a fresh cache with no entries. -/
def TrajCache.init (capacity : ℕ) (taild : ℚ) : TrajCache :=
  ⟨capacity, taild, []⟩

/-- Modelled from the spec: `push(t, state)` appends a copy of `state`
tagged with `t`; entries older than the trailing window are dropped lazily
on push, and the entry count is capped at the configured capacity by
evicting the oldest entries (spec §4.3, eviction policy). -/
def TrajCache.push (c : TrajCache) (t : ℚ) (s : List ℚ) : TrajCache :=
  let es := (c.entries ++ [(t, s)]).filter (fun e => decide (t - c.taild ≤ e.1))
  { c with entries := es.drop (es.length - c.capacity) }

/-- Fold a whole sequence of `push` operations into the cache. -/
def TrajCache.pushAll (c : TrajCache) (ops : List (ℚ × List ℚ)) : TrajCache :=
  ops.foldl (fun acc op => acc.push op.1 op.2) c

/-- Time tag of the most recent entry (0 for an empty cache). -/
def TrajCache.latest (c : TrajCache) : ℚ :=
  ((c.entries.map Prod.fst).getLastD 0)

/-- Modelled from the spec: `window()` returns all cached states whose tag
falls within the trailing window ending at the latest tag (spec §4.3). -/
def TrajCache.window (c : TrajCache) : List (ℚ × List ℚ) :=
  c.entries.filter (fun e => decide (c.latest - c.taild ≤ e.1 ∧ e.1 ≤ c.latest))

/-- A list of tagged entries is in non-decreasing time order. -/
def timeSorted (l : List (ℚ × List ℚ)) : Prop :=
  l.Pairwise (fun a b => a.1 ≤ b.1)

/-- Every entry of the list carries a tag at most `t`. -/
def timeBoundedBy (l : List (ℚ × List ℚ)) (t : ℚ) : Prop :=
  ∀ e ∈ l, e.1 ≤ t

/-! ### Copy-on-push and the live state vector (spec §4.3 / §9, modelled
from the spec) -/

/-- Modelled from the spec: an explicit heap of state vectors making the
aliasing question of spec §9 ("Mutable aliasing of the live state array
into the trail cache") expressible.  `cells` is the heap (addresses are
indices, allocation appends), `live` is the address of the live mutable
state vector, and each trail entry stores the address of the cell holding
its copied snapshot. -/
structure SimHeap where
  cells : List (List ℚ)
  live : ℕ
  trail : List (ℚ × ℕ)

/-- The current value of the live state vector. -/
def SimHeap.readLive (h : SimHeap) : List ℚ :=
  h.cells.getD h.live []

/-- Modelled from the spec: `push(t, state)` allocates a fresh cell,
copies the live state vector into it, and records the fresh address in the
trail (defensive copy-on-push, spec §4.3). -/
def SimHeap.push (h : SimHeap) (t : ℚ) : SimHeap :=
  { h with cells := h.cells ++ [h.readLive], trail := h.trail ++ [(t, h.cells.length)] }

/-- In-place mutation of the live state vector (what the scheduler does on
every tick to the shared mutable array). -/
def SimHeap.mutateLive (h : SimHeap) (v : List ℚ) : SimHeap :=
  { h with cells := h.cells.set h.live v }

/-- The state snapshot held by the `k`-th trail entry. -/
def SimHeap.entryVal (h : SimHeap) (k : ℕ) : List ℚ :=
  match h.trail.get? k with
  | some e => h.cells.getD e.2 []
  | none => []

/-- Well-formedness: the live address is allocated, and no trail entry
aliases the live state vector. -/
def SimHeap.Wf (h : SimHeap) : Prop :=
  h.live < h.cells.length ∧ ∀ e ∈ h.trail, e.2 < h.cells.length ∧ e.2 ≠ h.live

/-! ### Scheduler loop and integration steps (spec §4.2/§4.4, modelled
from the spec) -/

/-- Modelled from the spec: the scheduler state visible to the ordering
guarantee of §4.4 — the current simulation time and the times of the
display frames emitted so far. -/
structure SchedState where
  tsim : ℚ
  frames : List ℚ

/-- Modelled from the spec: one `Running → Running` tick computes the
target time `t_sim + Δt_display` and hands the sampled state to the
display adapter at exactly that time (spec §4.4, main tick, steps 1-5). -/
def schedTick (dt : ℚ) (s : SchedState) : SchedState :=
  ⟨s.tsim + dt, s.frames ++ [s.tsim + dt]⟩

/-- Modelled from the spec: `n` back-to-back scheduler ticks starting at
simulation time `t0` (the headless-test iteration mode of spec §5). -/
def schedRun (t0 dt : ℚ) (n : ℕ) : SchedState :=
  (schedTick dt)^[n] ⟨t0, []⟩

/-- Modelled from the spec: `next_step(from_time, from_state, max_time)`
advances the adaptive solver by one internal step of (solver-chosen)
size `h ≥ 0`, not exceeding `max_time` (spec §4.2); the result abstracts
the accepted step descriptor as its time interval. -/
def next_step (from_time h max_time : ℚ) : ℚ × ℚ :=
  (from_time, min (from_time + h) max_time)

/-- Embeds `Vehicle.runstep` from `src/demo/vehicle.ipynb`: iterates over the
parent `runstep` stream of (t, y) pairs, fires a control update whenever
`t` passes the threshold `t0` (advancing the threshold by `T = 1/crate`),
and yields every underlying pair unchanged.  The control update mutates
only the controller, not the yielded pairs, so the stream is modelled by
threading the threshold and returning the emitted pairs. -/
def vehicleRunstep (T : ℚ) : ℚ → List (ℚ × List ℚ) → List (ℚ × List ℚ)
  | _, [] => []
  | t0, (t, y) :: rest =>
      (t, y) :: vehicleRunstep T (if t0 < t then t0 + T else t0) rest

/-! ### Session error handling (spec §4.1/§7, modelled from the spec) -/

/-- Model of the floating-point values a user-supplied derivative can
return, as seen by the finiteness check of the core: finite values (kept
exact as rationals), NaN, and the two infinities. -/
inductive FVal where
  | fin (q : ℚ)
  | nan
  | inf
  | ninf
deriving DecidableEq

/-- The non-finiteness test the spec requires on derivative output. -/
def FVal.isFinite : FVal → Bool
  | fin _ => true
  | nan => false
  | inf => false
  | ninf => false

/-- Numeric content of a finite value (0 for non-finite, never used on
the advancing path because of the finiteness check). -/
def FVal.toQ : FVal → ℚ
  | fin q => q
  | nan => 0
  | inf => 0
  | ninf => 0

/-- Playback status of the session state machine (spec §4.4). -/
inductive SessionStatus where
  | Running
  | Stopped
deriving DecidableEq

/-- Modelled from the spec: a structured `NumericalError` reporting the
failing time and state (spec §4.1 error conditions, §7 taxonomy). -/
structure NumError where
  t : ℚ
  state : List ℚ
deriving DecidableEq

/-- Modelled from the spec: the playback session — current time, current
state, control status, and the error surfaced to the user, if any
(spec §3 "Playback session"). -/
structure Session where
  t : ℚ
  y : List ℚ
  status : SessionStatus
  err : Option NumError
deriving DecidableEq

/-- A session as primed on playback start (spec §4.4, Idle → Running). -/
def Session.init (t0 : ℚ) (y0 : List ℚ) : Session :=
  ⟨t0, y0, SessionStatus.Running, none⟩

/-- Modelled from the spec: one scheduler step.  A stopped session is
left untouched; otherwise the user derivative is evaluated at the current
(t, state): if any component is non-finite the session transitions to
`Stopped` carrying a `NumericalError` that reports the failing time and
state (spec §4.1), else the state advances by one explicit step. -/
def sessionStep (f : ℚ → List ℚ → List FVal) (dt : ℚ) (s : Session) : Session :=
  if s.status = SessionStatus.Stopped then s
  else
    if (f s.t s.y).all FVal.isFinite then
      { t := s.t + dt,
        y := List.zipWith (fun a b => a + dt * FVal.toQ b) s.y (f s.t s.y),
        status := SessionStatus.Running, err := s.err }
    else
      { s with status := SessionStatus.Stopped, err := some ⟨s.t, s.y⟩ }

/-! ### Initial-condition marshalling (src/demo/pendulum.ipynb,
src/demo/constgrav.ipynb) -/

/-- numpy `radians`: conversion from degrees to radians. -/
noncomputable def radians (x : ℝ) : ℝ := x * (Real.pi / 180)

/-- Embeds `Pendulum.makestate` from src/demo/pendulum.ipynb:
`return radians((θ,θʹ))` — angle and angular speed in degrees mapped to
the internal state vector in radians. -/
noncomputable def Pendulum.makestate (theta dtheta : ℝ) : ℝ × ℝ :=
  (radians theta, radians dtheta)

/-- Embeds `SphereSlider.makestate` from src/demo/constgrav.ipynb:
`s = sin(theta*pi/180)` and
`return array((theta,wtheta,phi,wphi*square(s)),float)*pi/180.` -/
noncomputable def SphereSlider.makestate (theta wtheta phi wphi : ℝ) :
    ℝ × ℝ × ℝ × ℝ :=
  (theta * (Real.pi / 180), wtheta * (Real.pi / 180), phi * (Real.pi / 180),
    (wphi * Real.sin (theta * Real.pi / 180) ^ 2) * (Real.pi / 180))

/-! ### System construction (src/unnamed/part_001, src/demo/pursuit.ipynb) -/

/-- Embeds `GNbody.__init__` from src/unnamed/part_001: stores the mass list, the
gravitational constant and the dimension, and derives `N = len(ML)` and
`size = 2*N*D`.  No parameter is validated, so construction is a total
function. -/
structure GNbodySys where
  ML : List ℝ
  G : ℝ
  D : ℕ
  N : ℕ
  size : ℕ

/-- Body of `GNbody.__init__` (the closures `fun`/`cartesian` are embedded
separately as `GNbody.fun'`). -/
def GNbody.init (ML : List ℝ) (G : ℝ) (D : ℕ) : GNbodySys :=
  { ML := ML, G := G, D := D, N := ML.length, size := 2 * ML.length * D }

/-- Attributes of a `Pursuit` system as stored by `Pursuit.__init__` from
src/demo/pursuit.ipynb. -/
structure PursuitSys where
  q : ℝ
  F : ℝ → ℝ × ℝ → ℝ × ℝ
  epsilon : ℝ

/-- Embeds `Pursuit.__init__` from src/demo/pursuit.ipynb: `assert q` aborts
construction exactly when `q = 0` (modelled as `none`); for `q < 0` the
leader field is time-reversed; `epsilon` is stored unvalidated. -/
noncomputable def Pursuit.init (q : ℝ) (F : ℝ → ℝ × ℝ → ℝ × ℝ)
    (epsilon : ℝ) : Option PursuitSys :=
  if q = 0 then none
  else some { q := q,
              F := if q < 0 then (fun t pos => -(F (-t) pos)) else F,
              epsilon := epsilon }

/-! ### N-body vector field (src/unnamed/part_001) -/

/-- Embeds `sum(square(Δ),axis=-1)` in `GNbody.fun`: squared distance between
bodies `i` and `j`. -/
def sqDist (N D : ℕ) (X : Fin N → Fin D → ℝ) (i j : Fin N) : ℝ :=
  ∑ d : Fin D, (X j d - X i d) ^ 2

/-- The acceleration rows of `GNbody.fun` from src/unnamed/part_001:
`Xʺ = sum((MG*(_ID+sum(square(Δ),axis=-1,keepdims=True))**-1.5)*Δ,axis=1)`
with `Δ[i,j] = X[j]-X[i]`, `MG[i,j] = G*ML[j]` and `_ID = eye(N)` (the
identity added on the diagonal to avoid the singular power there). -/
noncomputable def GNbody.accel (N D : ℕ) (G : ℝ) (m : Fin N → ℝ)
    (X : Fin N → Fin D → ℝ) (i : Fin N) (d : Fin D) : ℝ :=
  ∑ j : Fin N,
    (G * m j * ((if i = j then (1:ℝ) else 0) + sqDist N D X i j) ^ (-(3/2) : ℝ))
      * (X j d - X i d)

/-- Embeds `GNbody.fun` from src/unnamed/part_001: the flat state of size 2·N·D
is reshaped to `(X, Xʹ)`; the function returns `stack((Xʹ, Xʺ))`, embedded
here as the pair of its two reshaped halves. -/
noncomputable def GNbody.fun' (N D : ℕ) (G : ℝ) (m : Fin N → ℝ) (t : ℝ)
    (X Xv : Fin N → Fin D → ℝ) :
    (Fin N → Fin D → ℝ) × (Fin N → Fin D → ℝ) :=
  (Xv, fun i d => GNbody.accel N D G m X i d)

/-- The textbook acceleration stated in the markdown cell of the notebook:
`ẍ_i = Σ_{j≠i} G·m_j·‖x_j−x_i‖⁻³·(x_j−x_i)`. -/
noncomputable def GNbody.accelSpec (N D : ℕ) (G : ℝ) (m : Fin N → ℝ)
    (X : Fin N → Fin D → ℝ) (i : Fin N) (d : Fin D) : ℝ :=
  ∑ j in Finset.univ.erase i,
    G * m j * ((Real.sqrt (sqDist N D X i j)) ^ 3)⁻¹ * (X j d - X i d)

/-- Concrete positions for the C8 witness: two bodies on a line at 0
and 1. -/
def Xw : Fin 2 → Fin 1 → ℝ := fun i _ => if i = 0 then 0 else 1

/-! ### Fractal iteration (src/demo/fractals.ipynb) -/

/-- Squared modulus of a grid point; the escape test
`abs(z) >= eradius` is modelled as `eradius² ≤ |z|²`, equivalent for the
non-negative escape radii the notebooks use. -/
def cnormSq (w : ℚ × ℚ) : ℚ := w.1 ^ 2 + w.2 ^ 2

/-- Per-pixel state of the `iterfractal` loop from src/demo/fractals.ipynb:
the current iterate (`none` once the pixel was overwritten with NaN), the
`undecided` flag, the iteration counter `n`, and the colour value `tmap`. -/
structure FPixel where
  z : Option (ℚ × ℚ)
  undecided : Bool
  n : ℕ
  tmap : ℚ
deriving DecidableEq

/-- Pixel state before the first loop iteration: `tmap = 0`,
`undecided = True`, `n = 0`, current iterate `z₀`. -/
def FPixel.init (z0 : ℚ × ℚ) : FPixel := ⟨some z0, true, 0, 0⟩

/-- Embeds `sel[...] = abs(z) >= eradius`: the escape test; a NaN entry
(already escaped) compares false because numpy comparisons with NaN are
false and invalid-value warnings are suppressed by seterr. -/
def escTest (er2 : ℚ) : Option (ℚ × ℚ) → Bool
  | some w => decide (er2 ≤ cnormSq w)
  | none => false

/-- One iteration of the `iterfractal` loop body per pixel:
`sel = abs(z)>=eradius; z[sel]=nan; undecided[sel]=False; n += 1;
tmd = -tmap; tmd[undecided] += 1; tmap += tmd/n`, after which the
generator advances the pixel by `z = u(z)` for the next test. -/
def fstep (u : ℚ × ℚ → ℚ × ℚ) (er2 : ℚ) (p : FPixel) : FPixel :=
  let sel := escTest er2 p.z
  let z1 := if sel then none else p.z
  let und := p.undecided && !sel
  let n1 := p.n + 1
  ⟨z1.map u, und, n1, p.tmap + (-p.tmap + (if und then 1 else 0)) / n1⟩

/-- The pixel modulus stayed below the escape radius through its first
`k` iterates `z₀ … z_{k−1}`. -/
def stays (u : ℚ × ℚ → ℚ × ℚ) (z0 : ℚ × ℚ) (er2 : ℚ) (k : ℕ) : Prop :=
  ∀ i < k, cnormSq (u^[i] z0) < er2

instance staysDec (u : ℚ × ℚ → ℚ × ℚ) (z0 : ℚ × ℚ) (er2 : ℚ) (k : ℕ) :
    Decidable (stays u z0 er2 k) :=
  inferInstanceAs (Decidable (∀ i < k, cnormSq (u^[i] z0) < er2))

/-- The count `m` in the fractal markdown cell: among the first `n` iterates, the
number whose modulus stayed below the escape radius — the index at which
the pixel escaped, or `n` if it has not escaped. -/
def escCount (u : ℚ × ℚ → ℚ × ℚ) (z0 : ℚ × ℚ) (er2 : ℚ) (n : ℕ) : ℕ :=
  ((List.range n).filter (fun j => decide (stays u z0 er2 (j + 1)))).length

/-! ### Pursuit vector field (src/demo/pursuit.ipynb) -/

/-- Embeds `norm` from src/demo/pursuit.ipynb:
`sqrt(square(x[0])+square(x[1]))`. -/
noncomputable def pnorm (p : ℝ × ℝ) : ℝ := Real.sqrt (p.1 ^ 2 + p.2 ^ 2)

/-- The local `p = state[2:4]-state[0:2]` of `Pursuit.main`: displacement
from pursuer (first pair) to leader (second pair). -/
def Pursuit.pvec (s : (ℝ × ℝ) × (ℝ × ℝ)) : ℝ × ℝ :=
  (s.2.1 - s.1.1, s.2.2 - s.1.2)

/-- The local `d = norm(p)` of `Pursuit.main`: pursuer-leader distance. -/
noncomputable def Pursuit.dist (s : (ℝ × ℝ) × (ℝ × ℝ)) : ℝ :=
  pnorm (Pursuit.pvec s)

/-- Embeds `Pursuit.main` from src/demo/pursuit.ipynb, with `q` bound to
`abs(q)` as in the default argument of the source:
`v = F(t,state[2:4]); p = state[2:4]-state[0:2]; d = norm(p);
if d<epsilon: return concatenate((v,v));
p /= q*d ; p *= norm(v); return concatenate((p,v))`. -/
noncomputable def Pursuit.main (P : PursuitSys) (t : ℝ)
    (s : (ℝ × ℝ) × (ℝ × ℝ)) : (ℝ × ℝ) × (ℝ × ℝ) :=
  let v := P.F t s.2
  let p := Pursuit.pvec s
  let d := Pursuit.dist s
  if d < P.epsilon then (v, v)
  else ((p.1 / (|P.q| * d) * pnorm v, p.2 / (|P.q| * d) * pnorm v), v)

/-- Concrete pursuit system for the C10 witness. -/
noncomputable def Pw : PursuitSys := ⟨1, fun _ _ => (1, 0), 1/1000⟩

end IPYDEMO

namespace IPYDEMO

/-! ### Theorems: trajectory cache -/

theorem push_capacity (c : TrajCache) (t : ℚ) (s : List ℚ) :
    (c.push t s).entries.length ≤ c.capacity := by
  simp only [TrajCache.push, List.length_drop]
  omega

theorem push_preserves_capacity_field (c : TrajCache) (t : ℚ) (s : List ℚ) :
    (c.push t s).capacity = c.capacity := rfl

theorem push_inv (c : TrajCache) (t0 t : ℚ) (s : List ℚ)
    (hs : timeSorted c.entries) (hb : timeBoundedBy c.entries t0) (ht : t0 ≤ t) :
    timeSorted (c.push t s).entries ∧ timeBoundedBy (c.push t s).entries t := by
  have happ : timeSorted (c.entries ++ [(t, s)]) := by
    rw [timeSorted, List.pairwise_append]
    refine ⟨hs, List.pairwise_singleton _ _, ?_⟩
    intro a ha b hb'
    simp only [List.mem_singleton] at hb'
    subst hb'
    exact le_trans (hb a ha) ht
  have hfil : timeSorted ((c.entries ++ [(t, s)]).filter
      (fun e => decide (t - c.taild ≤ e.1))) := happ.filter _
  constructor
  · exact List.Pairwise.sublist (List.drop_sublist _ _) hfil
  · intro e he
    have he1 : e ∈ (c.entries ++ [(t, s)]).filter
        (fun e => decide (t - c.taild ≤ e.1)) :=
      (List.drop_sublist _ _).subset he
    have he2 : e ∈ c.entries ++ [(t, s)] := (List.mem_filter.mp he1).1
    rcases List.mem_append.mp he2 with h | h
    · exact le_trans (hb e h) ht
    · simp only [List.mem_singleton] at h
      subst h
      exact le_refl _

theorem pushAll_cons (c : TrajCache) (op : ℚ × List ℚ) (rest : List (ℚ × List ℚ)) :
    c.pushAll (op :: rest) = (c.push op.1 op.2).pushAll rest := rfl

theorem pushAll_capacity_field (ops : List (ℚ × List ℚ)) :
    ∀ c : TrajCache, (c.pushAll ops).capacity = c.capacity := by
  induction ops with
  | nil => exact fun _ => rfl
  | cons op rest ih =>
    intro c
    rw [pushAll_cons, ih]
    rfl

theorem pushAll_taild_field (ops : List (ℚ × List ℚ)) :
    ∀ c : TrajCache, (c.pushAll ops).taild = c.taild := by
  induction ops with
  | nil => exact fun _ => rfl
  | cons op rest ih =>
    intro c
    rw [pushAll_cons, ih]
    rfl

theorem pushAll_inv (ops : List (ℚ × List ℚ)) :
    ∀ (c : TrajCache) (t0 : ℚ), timeSorted c.entries → timeBoundedBy c.entries t0 →
    List.Chain' (· ≤ ·) (t0 :: ops.map Prod.fst) →
    timeSorted (c.pushAll ops).entries ∧
      ∃ t1, timeBoundedBy (c.pushAll ops).entries t1 := by
  induction ops with
  | nil => exact fun c t0 hs hb _ => ⟨hs, t0, hb⟩
  | cons op rest ih =>
    intro c t0 hs hb hchain
    rw [List.map_cons, List.chain'_cons] at hchain
    obtain ⟨h01, hchain'⟩ := hchain
    obtain ⟨hs', hb'⟩ := push_inv c t0 op.1 op.2 hs hb h01
    exact ih (c.push op.1 op.2) op.1 hs' hb' hchain'

theorem pushAll_capacity (ops : List (ℚ × List ℚ)) :
    ∀ (c : TrajCache), c.entries.length ≤ c.capacity →
    (c.pushAll ops).entries.length ≤ (c.pushAll ops).capacity := by
  induction ops with
  | nil => exact fun c h => h
  | cons op rest ih =>
    intro c _
    exact ih (c.push op.1 op.2)
      ((push_preserves_capacity_field c op.1 op.2) ▸ push_capacity c op.1 op.2)

theorem window_sorted_of_sorted (c : TrajCache) (hs : timeSorted c.entries) :
    timeSorted c.window := hs.filter _

theorem window_in_range (c : TrajCache) :
    ∀ e ∈ c.window, c.latest - c.taild ≤ e.1 ∧ e.1 ≤ c.latest := by
  intro e he
  have := (List.mem_filter.mp he).2
  exact of_decide_eq_true this

/-- Claim C1: for every configured trajectory cache and every sequence of
`push(t, state)` operations issued in non-decreasing time order (the data-model invariant of the spec, "entries are appended in increasing time order"), the
number of live entries never exceeds the configured capacity, and
`window()` returns entries in non-decreasing time order with every
time of every returned entry lying within the trailing window
[latest - taild, latest]. -/
theorem trajcache_capacity_and_window (cap : ℕ) (taild : ℚ)
    (ops : List (ℚ × List ℚ))
    (hmono : List.Chain' (· ≤ ·) (ops.map Prod.fst)) :
    ((TrajCache.init cap taild).pushAll ops).entries.length ≤ cap ∧
    timeSorted ((TrajCache.init cap taild).pushAll ops).window ∧
    ∀ e ∈ ((TrajCache.init cap taild).pushAll ops).window,
      ((TrajCache.init cap taild).pushAll ops).latest - taild ≤ e.1 ∧
      e.1 ≤ ((TrajCache.init cap taild).pushAll ops).latest := by
  have hcap0 : (TrajCache.init cap taild).entries.length ≤
      (TrajCache.init cap taild).capacity := by
    simp [TrajCache.init]
  have hcapfin := pushAll_capacity ops (TrajCache.init cap taild) hcap0
  have hcapeq : ((TrajCache.init cap taild).pushAll ops).capacity = cap :=
    pushAll_capacity_field ops (TrajCache.init cap taild)
  have hsorted : timeSorted ((TrajCache.init cap taild).pushAll ops).entries := by
    have h0s : timeSorted (TrajCache.init cap taild).entries := List.Pairwise.nil
    have h0b : timeBoundedBy (TrajCache.init cap taild).entries
        ((ops.map Prod.fst).headD 0) := by
      intro e he
      simp [TrajCache.init] at he
    have hchain : List.Chain' (· ≤ ·)
        (((ops.map Prod.fst).headD 0) :: ops.map Prod.fst) := by
      cases hops : ops.map Prod.fst with
      | nil => simp
      | cons a l =>
        rw [List.headD_cons, List.chain'_cons]
        exact ⟨le_refl a, hops ▸ hmono⟩
    exact (pushAll_inv ops (TrajCache.init cap taild)
      ((ops.map Prod.fst).headD 0) h0s h0b hchain).1
  refine ⟨le_trans hcapfin (le_of_eq hcapeq), window_sorted_of_sorted _ hsorted, ?_⟩
  have hl : ((TrajCache.init cap taild).pushAll ops).taild = taild :=
    pushAll_taild_field ops (TrajCache.init cap taild)
  intro e he
  have := window_in_range _ e he
  rwa [hl] at this

/-- Witness for C1: four pushes at non-decreasing times into a
capacity-2 cache with trailing window 1. -/
theorem trajcache_capacity_and_window_witness :
    List.Chain' (· ≤ ·)
      (([((0:ℚ), [(1:ℚ)]), (1, [2]), (2, [3]), (3, [4])]).map Prod.fst) ∧
    (((TrajCache.init 2 1).pushAll
        [((0:ℚ), [(1:ℚ)]), (1, [2]), (2, [3]), (3, [4])]).entries.length ≤ 2 ∧
    timeSorted ((TrajCache.init 2 1).pushAll
        [((0:ℚ), [(1:ℚ)]), (1, [2]), (2, [3]), (3, [4])]).window ∧
    ∀ e ∈ ((TrajCache.init 2 1).pushAll
        [((0:ℚ), [(1:ℚ)]), (1, [2]), (2, [3]), (3, [4])]).window,
      ((TrajCache.init 2 1).pushAll
        [((0:ℚ), [(1:ℚ)]), (1, [2]), (2, [3]), (3, [4])]).latest - 1 ≤ e.1 ∧
      e.1 ≤ ((TrajCache.init 2 1).pushAll
        [((0:ℚ), [(1:ℚ)]), (1, [2]), (2, [3]), (3, [4])]).latest) :=
  ⟨by norm_num [List.chain'_cons, List.chain'_singleton],
    trajcache_capacity_and_window 2 1
      [((0:ℚ), [(1:ℚ)]), (1, [2]), (2, [3]), (3, [4])]
      (by norm_num [List.chain'_cons, List.chain'_singleton])⟩

/-! ### Theorems: copy-on-push -/

theorem getD_set_ne (l : List (List ℚ)) (i j : ℕ) (v d : List ℚ) (hij : i ≠ j) :
    (l.set i v).getD j d = l.getD j d := by
  rw [List.getD_eq_getD_get?, List.getD_eq_getD_get?, List.get?_set_ne _ _ hij]

/-- Claim C2: `push(t, state)` stores a copy of the live state vector, not
an alias: after a push, any subsequent in-place mutation of the live
vector leaves the freshly cached entry equal to the value the live vector
had at push time, and leaves every cached entry (hence everything
`window()` later returns) unchanged. -/
theorem push_is_copy_not_alias (h : SimHeap) (t : ℚ) (v : List ℚ) (hwf : h.Wf) :
    ((h.push t).mutateLive v).entryVal h.trail.length = h.readLive ∧
    ∀ j, ((h.push t).mutateLive v).entryVal j = (h.push t).entryVal j := by
  obtain ⟨hlive, htrail⟩ := hwf
  constructor
  · show (match ((h.push t).trail.get? h.trail.length) with
      | some e => ((h.push t).mutateLive v).cells.getD e.2 []
      | none => []) = h.readLive
    have hget : (h.trail ++ [(t, h.cells.length)]).get? h.trail.length =
        some (t, h.cells.length) := List.get?_concat_length _ _
    show (match ((h.trail ++ [(t, h.cells.length)]).get? h.trail.length) with
      | some e => ((h.cells ++ [h.readLive]).set h.live v).getD e.2 []
      | none => []) = h.readLive
    rw [hget]
    show ((h.cells ++ [h.readLive]).set h.live v).getD h.cells.length [] = h.readLive
    rw [getD_set_ne _ _ _ _ _ (Nat.ne_of_lt hlive),
      List.getD_append_right _ _ _ _ (le_refl _), Nat.sub_self]
    rfl
  · intro j
    show (match ((h.push t).trail.get? j) with
      | some e => ((h.push t).mutateLive v).cells.getD e.2 []
      | none => []) =
      (match ((h.push t).trail.get? j) with
      | some e => (h.push t).cells.getD e.2 []
      | none => [])
    cases hget : (h.push t).trail.get? j with
    | none => rfl
    | some e =>
      have hmem : e ∈ (h.push t).trail := List.get?_mem hget
      have hne : e.2 ≠ h.live := by
        rcases List.mem_append.mp hmem with hm | hm
        · exact (htrail e hm).2
        · simp only [List.mem_singleton] at hm
          subst hm
          exact Nat.ne_of_gt hlive
      exact getD_set_ne _ _ _ _ _ (fun hh => hne hh.symm)

/-- Witness for C2: a one-cell heap whose live vector is [1, 2], pushed at
time 0 and then mutated to [5, 6]. -/
theorem push_is_copy_not_alias_witness :
    (SimHeap.mk [[(1:ℚ), 2]] 0 []).Wf ∧
    ((((SimHeap.mk [[(1:ℚ), 2]] 0 []).push 0).mutateLive [5, 6]).entryVal
        (SimHeap.mk [[(1:ℚ), 2]] 0 []).trail.length =
      (SimHeap.mk [[(1:ℚ), 2]] 0 []).readLive ∧
    ∀ j, (((SimHeap.mk [[(1:ℚ), 2]] 0 []).push 0).mutateLive [5, 6]).entryVal j =
      ((SimHeap.mk [[(1:ℚ), 2]] 0 []).push 0).entryVal j) :=
  ⟨⟨by decide, by simp [SimHeap.Wf]⟩,
    push_is_copy_not_alias (SimHeap.mk [[(1:ℚ), 2]] 0 []) 0 [5, 6]
      ⟨by decide, by simp [SimHeap.Wf]⟩⟩

/-! ### Theorems: scheduler ordering -/

theorem schedTick_inv (dt : ℚ) (hdt : 0 < dt) (s : SchedState)
    (h1 : s.frames.Pairwise (· < ·)) (h2 : ∀ x ∈ s.frames, x ≤ s.tsim) :
    (schedTick dt s).frames.Pairwise (· < ·) ∧
    ∀ x ∈ (schedTick dt s).frames, x ≤ (schedTick dt s).tsim := by
  constructor
  · rw [schedTick, List.pairwise_append]
    refine ⟨h1, List.pairwise_singleton _ _, ?_⟩
    intro a ha b hb
    simp only [List.mem_singleton] at hb
    subst hb
    exact lt_of_le_of_lt (h2 a ha) (by linarith)
  · intro x hx
    rcases List.mem_append.mp hx with hm | hm
    · exact le_trans (h2 x hm) (by simp [schedTick]; linarith)
    · simp only [List.mem_singleton] at hm
      subst hm
      exact le_refl _

theorem schedRun_inv (t0 dt : ℚ) (hdt : 0 < dt) (n : ℕ) :
    (schedRun t0 dt n).frames.Pairwise (· < ·) ∧
    ∀ x ∈ (schedRun t0 dt n).frames, x ≤ (schedRun t0 dt n).tsim := by
  induction n with
  | zero => exact ⟨List.Pairwise.nil, by intro x hx; simp [schedRun] at hx⟩
  | succ m ih =>
    rw [schedRun, Function.iterate_succ_apply']
    exact schedTick_inv dt hdt _ ih.1 ih.2

theorem vehicleRunstep_id (T : ℚ) (frames : List (ℚ × List ℚ)) :
    ∀ t0, vehicleRunstep T t0 frames = frames := by
  induction frames with
  | nil => intro t0; rfl
  | cons fr rest ih =>
    intro t0
    rw [show fr = (fr.1, fr.2) from rfl, vehicleRunstep, ih]

/-- Claim C3: display frames are produced for strictly increasing
simulation time — the emitted frame-time list of the scheduler is strictly
sorted, so no frame is re-emitted or emitted for an earlier time — the
`Vehicle.runstep` wrapper yields exactly the underlying frame stream in
order, and the interval of every accepted integration step satisfies
`t_start ≤ t_end`. -/
theorem scheduler_frame_ordering (t0 dt : ℚ) (n : ℕ) (T tc : ℚ)
    (frames : List (ℚ × List ℚ)) (tf h max_time : ℚ)
    (hdt : 0 < dt) (hh : 0 ≤ h) (hmax : tf ≤ max_time) :
    (schedRun t0 dt n).frames.Pairwise (· < ·) ∧
    vehicleRunstep T tc frames = frames ∧
    (next_step tf h max_time).1 ≤ (next_step tf h max_time).2 := by
  refine ⟨(schedRun_inv t0 dt hdt n).1, vehicleRunstep_id T frames tc, ?_⟩
  show tf ≤ min (tf + h) max_time
  exact le_min (by linarith) hmax

/-- Witness for C3: ten ticks of size 1 from time 0, a two-frame vehicle
stream, and a step from time 0 of size 1/2 capped at 1. -/
theorem scheduler_frame_ordering_witness :
    (0:ℚ) < 1 ∧ (0:ℚ) ≤ 1/2 ∧ (0:ℚ) ≤ 1 ∧
    ((schedRun 0 1 10).frames.Pairwise (· < ·) ∧
    vehicleRunstep 1 0 [((1:ℚ), [(1:ℚ)]), (2, [2])] = [((1:ℚ), [(1:ℚ)]), (2, [2])] ∧
    (next_step 0 (1/2) 1).1 ≤ (next_step 0 (1/2) 1).2) :=
  ⟨by norm_num, by norm_num, by norm_num,
    scheduler_frame_ordering 0 1 10 1 0 [((1:ℚ), [(1:ℚ)]), (2, [2])] 0 (1/2) 1
      (by norm_num) (by norm_num) (by norm_num)⟩

/-! ### Theorems: NumericalError handling -/

theorem sessionStep_stopped (f : ℚ → List ℚ → List FVal) (dt : ℚ) (s : Session)
    (hs : s.status = SessionStatus.Stopped) : sessionStep f dt s = s := by
  rw [sessionStep, if_pos hs]

/-- Claim C4: whenever the user-supplied derivative returns a non-finite
value (NaN/Inf) at the current (t, state) of the session, the session
transitions to the terminal `Stopped` state carrying a `NumericalError`
that reports the failing time and state, and stays there for all later
ticks instead of continuing to integrate; instantiated at a freshly
started session, a derivative returning NaN on the first call yields a
`NumericalError` referencing `t0`. -/
theorem nonfinite_derivative_stops (f : ℚ → List ℚ → List FVal) (dt : ℚ)
    (s : Session) (n : ℕ) (hrun : s.status = SessionStatus.Running)
    (hbad : (f s.t s.y).all FVal.isFinite = false) (hn : 1 ≤ n) :
    ((sessionStep f dt)^[n] s).status = SessionStatus.Stopped ∧
    ((sessionStep f dt)^[n] s).err = some ⟨s.t, s.y⟩ := by
  have hstep : sessionStep f dt s =
      { s with status := SessionStatus.Stopped, err := some ⟨s.t, s.y⟩ } := by
    rw [sessionStep, if_neg (by rw [hrun]; exact fun hc => nomatch hc), if_neg (by rw [hbad]; exact fun hc => nomatch hc)]
  obtain ⟨m, rfl⟩ : ∃ m, n = m + 1 := ⟨n - 1, by omega⟩
  have hiter : (sessionStep f dt)^[m + 1] s =
      { s with status := SessionStatus.Stopped, err := some ⟨s.t, s.y⟩ } := by
    rw [Function.iterate_add_apply, Function.iterate_one, hstep]
    exact Function.iterate_fixed (sessionStep_stopped f dt _ rfl) m
  rw [hiter]
  exact ⟨rfl, rfl⟩

/-- Witness for C4: a derivative that returns NaN on the first call, from
a session started at t0 = 0 with state [1]. -/
theorem nonfinite_derivative_stops_witness :
    (Session.init 0 [1]).status = SessionStatus.Running ∧
    ((fun (_ : ℚ) (_ : List ℚ) => [FVal.nan]) (Session.init 0 [1]).t
        (Session.init 0 [1]).y).all FVal.isFinite = false ∧
    1 ≤ 1 ∧
    (((sessionStep (fun _ _ => [FVal.nan]) 1)^[1] (Session.init 0 [1])).status =
        SessionStatus.Stopped ∧
      ((sessionStep (fun _ _ => [FVal.nan]) 1)^[1] (Session.init 0 [1])).err =
        some ⟨0, [1]⟩) :=
  ⟨rfl, rfl, le_refl 1,
    nonfinite_derivative_stops (fun _ _ => [FVal.nan]) 1 (Session.init 0 [1]) 1
      rfl rfl (le_refl 1)⟩

/-! ### Theorems: initial-condition marshalling -/

/-- Counterexample for C6: `SphereSlider.makestate` (cited by the claim)
does not multiply every component by π/180 — at θ = 30°, ωφ = 1 the
fourth state component is sin²(π/6)·π/180 = (1/4)·π/180, not π/180. -/
theorem makestate_not_componentwise_radians :
    SphereSlider.makestate 30 0 0 1 ≠
      (30 * (Real.pi / 180), 0 * (Real.pi / 180), 0 * (Real.pi / 180),
        1 * (Real.pi / 180)) := by
  intro hc
  have h4 := congrArg (fun p : ℝ × ℝ × ℝ × ℝ => p.2.2.2) hc
  simp only [SphereSlider.makestate] at h4
  have hs : Real.sin (30 * Real.pi / 180) = 1 / 2 := by
    have h6 : (30 : ℝ) * Real.pi / 180 = Real.pi / 6 := by ring
    rw [h6, Real.sin_pi_div_six]
  rw [hs] at h4
  have hpi := Real.pi_pos
  nlinarith [h4, hpi]

/-- Claim C6, amended: `Pendulum.makestate` is a pure componentwise π/180
conversion of its degree-valued inputs; `SphereSlider.makestate` converts
θ, ωθ and φ by π/180 but maps the azimuthal angular speed to
ωφ·sin²(θ·π/180)·π/180 (the conjugate momentum `q`), so it is a π/180
scaling on all but the fourth component. -/
theorem makestate_unit_conversion (theta dtheta wtheta phi wphi : ℝ) :
    Pendulum.makestate theta dtheta =
      (theta * (Real.pi / 180), dtheta * (Real.pi / 180)) ∧
    (SphereSlider.makestate theta wtheta phi wphi).1 = theta * (Real.pi / 180) ∧
    (SphereSlider.makestate theta wtheta phi wphi).2.1 = wtheta * (Real.pi / 180) ∧
    (SphereSlider.makestate theta wtheta phi wphi).2.2.1 = phi * (Real.pi / 180) ∧
    (SphereSlider.makestate theta wtheta phi wphi).2.2.2 =
      wphi * Real.sin (radians theta) ^ 2 * (Real.pi / 180) := by
  refine ⟨rfl, rfl, rfl, rfl, ?_⟩
  show (wphi * Real.sin (theta * Real.pi / 180) ^ 2) * (Real.pi / 180) =
    wphi * Real.sin (radians theta) ^ 2 * (Real.pi / 180)
  rw [radians]
  ring_nf

/-! ### Theorems: construction-time validation -/

/-- Counterexample for C7: `GNbody.__init__` silently accepts a
non-positive mass — constructing the system with the single mass −1
succeeds and stores the invalid mass unvalidated. -/
theorem gnbody_accepts_nonpositive_mass :
    (-1 : ℝ) ∈ [(-1 : ℝ)] ∧ (-1 : ℝ) ≤ 0 ∧
    GNbody.init [(-1 : ℝ)] 1 2 =
      { ML := [(-1 : ℝ)], G := 1, D := 2, N := 1, size := 4 } :=
  ⟨List.mem_singleton_self _, by norm_num, rfl⟩

/-- Claim C7, amended: construction performs no range validation.
`GNbody.__init__` is total: every mass list — non-positive masses
included — is accepted silently and stored as given.  `Pursuit.__init__`
fails fast (via `assert q`, an AssertionError rather than an
`InvalidParameter` error) exactly when `q = 0`; every other parameter
combination, including non-positive `epsilon`, is accepted. -/
theorem construction_no_validation (ML : List ℝ) (G : ℝ) (D : ℕ) (q : ℝ)
    (F : ℝ → ℝ × ℝ → ℝ × ℝ) (epsilon : ℝ) :
    (GNbody.init ML G D).ML = ML ∧
    (GNbody.init ML G D).N = ML.length ∧
    (Pursuit.init q F epsilon = none ↔ q = 0) := by
  refine ⟨rfl, rfl, ?_, ?_⟩
  · intro h
    by_contra hq
    rw [Pursuit.init, if_neg hq] at h
    exact Option.some_ne_none _ h
  · intro h
    rw [Pursuit.init, if_pos h]

/-! ### Theorems: N-body vector field -/

theorem sqDist_pos (N D : ℕ) (X : Fin N → Fin D → ℝ) (i j : Fin N)
    (hne : X i ≠ X j) : 0 < sqDist N D X i j := by
  have hd : ∃ d, X i d ≠ X j d := by
    by_contra hc
    push_neg at hc
    exact hne (funext hc)
  obtain ⟨d, hd⟩ := hd
  refine Finset.sum_pos' (fun e _ => sq_nonneg _) ?_
  exact ⟨d, Finset.mem_univ d,
    pow_two_pos_of_ne_zero (sub_ne_zero.mpr (Ne.symm hd))⟩

theorem rpow_neg_three_halves (r : ℝ) (hr : 0 < r) :
    r ^ (-(3/2) : ℝ) = ((Real.sqrt r) ^ 3)⁻¹ := by
  rw [Real.sqrt_eq_rpow, ← Real.rpow_natCast (r ^ ((1:ℝ)/2)) 3,
    ← Real.rpow_mul hr.le,
    (by norm_num : (1:ℝ)/2 * ((3:ℕ):ℝ) = (3/2 : ℝ)),
    ← Real.rpow_neg hr.le]

/-- Claim C8: for every time and every state whose `N` body positions are
pairwise distinct, `GNbody.fun` returns the concatenation of the
velocities with the textbook accelerations
`ẍ_i = Σ_{j≠i} G·m_j·‖x_j−x_i‖⁻³·(x_j−x_i)`: the identity matrix added to
the squared pairwise distances on the diagonal never changes the value,
because the displacement factor `Δ_ii` vanishes there. -/
theorem gnbody_fun_eq_spec (N D : ℕ) (G : ℝ) (m : Fin N → ℝ) (t : ℝ)
    (X Xv : Fin N → Fin D → ℝ)
    (hdist : ∀ i j : Fin N, i ≠ j → X i ≠ X j) :
    GNbody.fun' N D G m t X Xv =
      (Xv, fun i d => GNbody.accelSpec N D G m X i d) := by
  rw [GNbody.fun']
  simp only [Prod.mk.injEq]
  refine ⟨trivial, ?_⟩
  funext i d
  rw [GNbody.accel, GNbody.accelSpec,
    ← Finset.add_sum_erase Finset.univ _ (Finset.mem_univ i),
    sub_self, mul_zero, zero_add]
  refine Finset.sum_congr rfl ?_
  intro j hj
  have hji : j ≠ i := Finset.ne_of_mem_erase hj
  rw [if_neg (fun hc => hji hc.symm), zero_add,
    rpow_neg_three_halves _ (sqDist_pos N D X i j (hdist i j (Ne.symm hji)))]

theorem Xw_distinct : ∀ i j : Fin 2, i ≠ j → Xw i ≠ Xw j := by
  intro i j hij hfun
  have h0 := congrFun hfun 0
  simp only [Xw] at h0
  fin_cases i <;> fin_cases j <;> simp_all

/-- Witness for C8: two unit masses on a line at positions 0 and 1. -/
theorem gnbody_fun_eq_spec_witness :
    (∀ i j : Fin 2, i ≠ j → Xw i ≠ Xw j) ∧
    GNbody.fun' 2 1 1 (fun _ => 1) 0 Xw (fun _ _ => 0) =
      ((fun _ _ => 0), fun i d => GNbody.accelSpec 2 1 1 (fun _ => 1) Xw i d) :=
  ⟨Xw_distinct,
    gnbody_fun_eq_spec 2 1 1 (fun _ => 1) 0 Xw (fun _ _ => 0) Xw_distinct⟩

/-! ### Theorems: fractal colouring invariant -/

theorem stays_zero (u : ℚ × ℚ → ℚ × ℚ) (z0 : ℚ × ℚ) (er2 : ℚ) :
    stays u z0 er2 0 :=
  fun i hi => absurd hi (Nat.not_lt_zero i)

theorem stays_succ (u : ℚ × ℚ → ℚ × ℚ) (z0 : ℚ × ℚ) (er2 : ℚ) (k : ℕ) :
    stays u z0 er2 (k + 1) ↔
      stays u z0 er2 k ∧ cnormSq (u^[k] z0) < er2 := by
  constructor
  · intro h
    exact ⟨fun i hi => h i (Nat.lt_succ_of_lt hi), h k (Nat.lt_succ_self k)⟩
  · rintro ⟨hs, hk⟩ i hi
    rcases Nat.lt_succ_iff_lt_or_eq.mp hi with hlt | heq
    · exact hs i hlt
    · exact heq ▸ hk

theorem escCount_succ (u : ℚ × ℚ → ℚ × ℚ) (z0 : ℚ × ℚ) (er2 : ℚ) (k : ℕ) :
    escCount u z0 er2 (k + 1) =
      escCount u z0 er2 k + (if stays u z0 er2 (k + 1) then 1 else 0) := by
  by_cases hP : stays u z0 er2 (k + 1) <;>
    simp [escCount, List.range_succ, hP]

theorem fstep_unfold (u : ℚ × ℚ → ℚ × ℚ) (er2 : ℚ) (p : FPixel) :
    fstep u er2 p =
      ⟨(if escTest er2 p.z then none else p.z).map u,
        p.undecided && !(escTest er2 p.z), p.n + 1,
        p.tmap + (-p.tmap +
          (if (p.undecided && !(escTest er2 p.z)) then 1 else 0)) /
            (((p.n + 1 : ℕ)) : ℚ)⟩ :=
  rfl

theorem und_char (u : ℚ × ℚ → ℚ × ℚ) (z0 : ℚ × ℚ) (er2 : ℚ) (k : ℕ) :
    (decide (stays u z0 er2 k) &&
      !(escTest er2 (if stays u z0 er2 k then some (u^[k] z0) else none))) =
      decide (stays u z0 er2 (k + 1)) := by
  by_cases hk : stays u z0 er2 k
  · by_cases hesc : cnormSq (u^[k] z0) < er2
    · have hk1 : stays u z0 er2 (k + 1) := (stays_succ u z0 er2 k).mpr ⟨hk, hesc⟩
      simp [hk, hk1, escTest, not_le.mpr hesc]
    · have hk1 : ¬ stays u z0 er2 (k + 1) :=
        fun h => hesc ((stays_succ u z0 er2 k).mp h).2
      simp [hk, hk1, escTest, not_lt.mp hesc]
  · have hk1 : ¬ stays u z0 er2 (k + 1) :=
      fun h => hk ((stays_succ u z0 er2 k).mp h).1
    simp [hk, hk1, escTest]

theorem z_char (u : ℚ × ℚ → ℚ × ℚ) (z0 : ℚ × ℚ) (er2 : ℚ) (k : ℕ) :
    ((if escTest er2 (if stays u z0 er2 k then some (u^[k] z0) else none)
        then none
        else (if stays u z0 er2 k then some (u^[k] z0) else none)).map u) =
      (if stays u z0 er2 (k + 1) then some (u^[k + 1] z0) else none) := by
  by_cases hk : stays u z0 er2 k
  · by_cases hesc : cnormSq (u^[k] z0) < er2
    · have hk1 : stays u z0 er2 (k + 1) := (stays_succ u z0 er2 k).mpr ⟨hk, hesc⟩
      simp [hk, hk1, escTest, not_le.mpr hesc, Function.iterate_succ_apply']
    · have hk1 : ¬ stays u z0 er2 (k + 1) :=
        fun h => hesc ((stays_succ u z0 er2 k).mp h).2
      simp [hk, hk1, escTest, not_lt.mp hesc]
  · have hk1 : ¬ stays u z0 er2 (k + 1) :=
      fun h => hk ((stays_succ u z0 er2 k).mp h).1
    simp [hk, hk1, escTest]

theorem tmap_arith (m : ℕ) (k : ℕ) (c : ℚ) (hm : k = 0 → m = 0) :
    (m : ℚ) / (k : ℚ) + (-((m : ℚ) / (k : ℚ)) + c) / ((k : ℚ) + 1) =
      ((m : ℚ) + c) / ((k : ℚ) + 1) := by
  rcases Nat.eq_zero_or_pos k with hk | hk
  · subst hk
    rw [hm rfl]
    norm_num
  · have hkQ : (k : ℚ) ≠ 0 := Nat.cast_ne_zero.mpr (Nat.pos_iff_ne_zero.mp hk)
    have hk1Q : (k : ℚ) + 1 ≠ 0 := by positivity
    field_simp
    ring

theorem fstep_iterate_char (u : ℚ × ℚ → ℚ × ℚ) (z0 : ℚ × ℚ) (er2 : ℚ)
    (k : ℕ) :
    (fstep u er2)^[k] (FPixel.init z0) =
      ⟨if stays u z0 er2 k then some (u^[k] z0) else none,
        decide (stays u z0 er2 k), k,
        (escCount u z0 er2 k : ℚ) / (k : ℚ)⟩ := by
  induction k with
  | zero =>
    have h0 : stays u z0 er2 0 := stays_zero u z0 er2
    simp [FPixel.init, h0, escCount]
  | succ k ih =>
    rw [Function.iterate_succ_apply', ih, fstep_unfold]
    simp only []
    rw [und_char]
    refine congrArg₂ (fun a b => FPixel.mk a (decide (stays u z0 er2 (k + 1)))
      (k + 1) b) (z_char u z0 er2 k) ?_
    simp only [decide_eq_true_eq]
    rw [escCount_succ]
    push_cast
    by_cases hk1 : stays u z0 er2 (k + 1)
    · simp only [if_pos hk1]
      exact tmap_arith _ k 1 (fun h => by subst h; rfl)
    · simp only [if_neg hk1]
      exact tmap_arith _ k 0 (fun h => by subst h; rfl)

/-- Claim C9: the incremental update `tmd = -tmap; tmd[undecided] += 1;
tmap += tmd/n` of `iterfractal` maintains, after the n-th yield and for
every pixel, the invariant `tmap = m/n` in exact arithmetic, where `m` is
the number of the first `n` iterates of that pixel whose modulus stayed
below the escape radius (the index at which the pixel escaped, or `n` if
it has not escaped). -/
theorem iterfractal_tmap_invariant (u : ℚ × ℚ → ℚ × ℚ) (z0 : ℚ × ℚ)
    (er2 : ℚ) (n : ℕ) :
    ((fstep u er2)^[n] (FPixel.init z0)).tmap =
      (escCount u z0 er2 n : ℚ) / (n : ℚ) := by
  rw [fstep_iterate_char]

/-! ### Theorems: pursuit near-collision safety -/

/-- Claim C10: `Pursuit.main` is total at near-collision: whenever the
pursuer-leader distance `d` falls below `epsilon` it returns the leader
velocity duplicated for pursuer and leader, dividing by nothing; it
divides by `|q|·d` only in the branch where `d ≥ epsilon`, where the
divisor is at least `|q|·epsilon` and strictly positive — so no division
by a value below `|q|·epsilon` ever occurs. -/
theorem pursuit_main_near_collision (P : PursuitSys) (t : ℝ)
    (s : (ℝ × ℝ) × (ℝ × ℝ)) (hq : P.q ≠ 0) (heps : 0 < P.epsilon) :
    (Pursuit.dist s < P.epsilon →
      Pursuit.main P t s = (P.F t s.2, P.F t s.2)) ∧
    (¬ Pursuit.dist s < P.epsilon →
      P.epsilon ≤ Pursuit.dist s ∧
      |P.q| * P.epsilon ≤ |P.q| * Pursuit.dist s ∧
      0 < |P.q| * Pursuit.dist s ∧
      Pursuit.main P t s =
        (((Pursuit.pvec s).1 / (|P.q| * Pursuit.dist s) * pnorm (P.F t s.2),
          (Pursuit.pvec s).2 / (|P.q| * Pursuit.dist s) * pnorm (P.F t s.2)),
          P.F t s.2)) := by
  have habs : 0 < |P.q| := abs_pos.mpr hq
  constructor
  · intro hlt
    rw [Pursuit.main, if_pos hlt]
  · intro hge
    have hd : P.epsilon ≤ Pursuit.dist s := not_lt.mp hge
    refine ⟨hd, mul_le_mul_of_nonneg_left hd (abs_nonneg _), ?_, ?_⟩
    · exact mul_pos habs (lt_of_lt_of_le heps hd)
    · rw [Pursuit.main, if_neg hge]

/-- Witness for C10: unit `q`, leader field returning velocity (1, 0),
`epsilon = 1/1000`, evaluated at the coincident state where pursuer and
leader both sit at the origin (distance 0, the near-collision branch). -/
theorem pursuit_main_near_collision_witness :
    Pw.q ≠ 0 ∧ 0 < Pw.epsilon ∧
    ((Pursuit.dist (((0:ℝ), (0:ℝ)), ((0:ℝ), (0:ℝ))) < Pw.epsilon →
      Pursuit.main Pw 0 (((0:ℝ), (0:ℝ)), ((0:ℝ), (0:ℝ))) =
        (Pw.F 0 ((0:ℝ), (0:ℝ)), Pw.F 0 ((0:ℝ), (0:ℝ)))) ∧
    (¬ Pursuit.dist (((0:ℝ), (0:ℝ)), ((0:ℝ), (0:ℝ))) < Pw.epsilon →
      Pw.epsilon ≤ Pursuit.dist (((0:ℝ), (0:ℝ)), ((0:ℝ), (0:ℝ))) ∧
      |Pw.q| * Pw.epsilon ≤
        |Pw.q| * Pursuit.dist (((0:ℝ), (0:ℝ)), ((0:ℝ), (0:ℝ))) ∧
      0 < |Pw.q| * Pursuit.dist (((0:ℝ), (0:ℝ)), ((0:ℝ), (0:ℝ))) ∧
      Pursuit.main Pw 0 (((0:ℝ), (0:ℝ)), ((0:ℝ), (0:ℝ))) =
        (((Pursuit.pvec (((0:ℝ), (0:ℝ)), ((0:ℝ), (0:ℝ)))).1 /
            (|Pw.q| * Pursuit.dist (((0:ℝ), (0:ℝ)), ((0:ℝ), (0:ℝ)))) *
            pnorm (Pw.F 0 ((0:ℝ), (0:ℝ))),
          (Pursuit.pvec (((0:ℝ), (0:ℝ)), ((0:ℝ), (0:ℝ)))).2 /
            (|Pw.q| * Pursuit.dist (((0:ℝ), (0:ℝ)), ((0:ℝ), (0:ℝ)))) *
            pnorm (Pw.F 0 ((0:ℝ), (0:ℝ)))),
          Pw.F 0 ((0:ℝ), (0:ℝ))))) :=
  ⟨by norm_num [Pw], by norm_num [Pw],
    pursuit_main_near_collision Pw 0 (((0:ℝ), (0:ℝ)), ((0:ℝ), (0:ℝ)))
      (by norm_num [Pw]) (by norm_num [Pw])⟩

end IPYDEMO
